import Mathlib

/-!
Verification development for the ProGeStock back-office core.

The definitions below are a shallow embedding of the repository's stock
ledger and document-lifecycle core:

* `adjustStock`   — `inventory/views.py`, `StockAdjustmentView.post`
* `transferStock` — `inventory/views.py`, `StockTransferView.post` together
  with `inventory/serializers.py`, `StockTransferSerializer.validate`
* `reduceStock` / `reduceLine` / `drain`
                  — `sales/models.py`, `Invoice.reduce_stock`
* `nextStatus` / `updateStatus`
                  — `sales/models.py`, `Invoice.update_status`
* `paymentSave`   — `sales/models.py`, `Payment.save`
* `recordPayment` — `sales/views.py`, `InvoiceViewSet.record_payment`
* `receiveItems`  — `purchasing/views.py`, `PurchaseOrderViewSet.receive_items`
* `addStockToInventory`
                  — `purchasing/models.py`, `PurchaseOrder.add_stock_to_inventory`

Database rows are lists of records; monetary `Decimal` values (two decimal
places) are integers in cents; dates are integer day numbers.  A Django
`@transaction.atomic` view that returns an error response before mutating
anything is modelled with `Except`: an `error` result carries no new state.
-/

/-- One row of the `inventory.Stock` table: the quantity of one product at
one location.  `(product, location)` is unique in a well-formed table. -/
structure StockRow where
  product : Nat
  location : Nat
  quantity : Nat
deriving Repr, DecidableEq

abbrev StockTable := List StockRow

/-- One row of the `inventory.Product` table; only the owning company is
relevant to the core operations modelled here. -/
structure ProdRow where
  id : Nat
  company : Nat
deriving Repr, DecidableEq

/-- Audit-trail action kinds used by the modelled operations
(`auditing.models.ACTION_TYPES`). -/
inductive ActionType
  | stockAdded
  | stockRemoved
  | stockSet
  | stockTransferred
  | stockLevelAdjusted
deriving Repr, DecidableEq

/-- An `auditing.LogEntry` as far as the modelled operations populate it:
the action kind plus the two numeric payload fields each writer uses
(old/new quantity for adjustments, reduced quantity for stock reduction,
needed/short quantities for the shortfall warning). -/
structure LogEntry where
  action : ActionType
  qty1 : Nat
  qty2 : Nat
deriving Repr, DecidableEq

/-- Business-rule failure modes surfaced as error responses. -/
inductive Err
  | insufficientStock (available : Nat)
  | sameLocation
  | noStockRecord
  | invalidQuantity
  | amountRequired
  | amountNotPositive
  | paymentExceedsOutstanding
  | alreadyReceived
  | cancelledOrder
  | noLineItems
  | alreadyAdded
  | notYetReceived
deriving Repr, DecidableEq

deriving instance DecidableEq for Except

/-- Quantity of the row found by product and location (the ORM get), or
`none` when no row exists. -/
def lookupQty : StockTable → Nat → Nat → Option Nat
  | [], _, _ => none
  | r :: rs, p, l =>
    if r.product = p ∧ r.location = l then some r.quantity else lookupQty rs p l

/-- Whether a `(product, location)` row exists. -/
def hasKey : StockTable → Nat → Nat → Bool
  | [], _, _ => false
  | r :: rs, p, l =>
    if r.product = p ∧ r.location = l then true else hasKey rs p l

/-- Model of the ORM get-or-create with a zero-quantity default: the
existing table when the row exists, otherwise the table with a fresh
zero-quantity row appended. -/
def getOrCreate (t : StockTable) (p l : Nat) : StockTable :=
  if hasKey t p l then t else t ++ [⟨p, l, 0⟩]

/-- Overwrite the quantity of the `(p, l)` row (`stock.quantity = q; stock.save()`). -/
def setQty : StockTable → Nat → Nat → Nat → StockTable
  | [], _, _, _ => []
  | r :: rs, p, l, q =>
    if r.product = p ∧ r.location = l then ⟨r.product, r.location, q⟩ :: setQty rs p l q
    else r :: setQty rs p l q

/-- Action strings accepted by `StockAdjustmentSerializer`. -/
inductive AdjAction
  | add
  | remove
  | set
deriving Repr, DecidableEq

/-- Model of `StockAdjustmentView.post` (inventory/views.py): get-or-create the stock
row, apply the action, write one audit entry on success.  The serializer
enforces `quantity ≥ 0`, which `Nat` captures.  The view runs in
`@transaction.atomic` but an error *response* still commits the
`get_or_create`, so the returned table keeps the created row even on
failure.  The tenant-membership check on product and location happens
upstream of this core and is not modelled. -/
def adjustStock (t : StockTable) (log : List LogEntry) (p l : Nat)
    (action : AdjAction) (quantity : Nat) :
    Except Err Nat × StockTable × List LogEntry :=
  let t1 := getOrCreate t p l
  let old := (lookupQty t1 p l).getD 0
  match action with
  | .add =>
      (.ok (old + quantity), setQty t1 p l (old + quantity),
       log ++ [⟨.stockAdded, old, old + quantity⟩])
  | .remove =>
      if old < quantity then
        (.error (.insufficientStock old), t1, log)
      else
        (.ok (old - quantity), setQty t1 p l (old - quantity),
         log ++ [⟨.stockRemoved, old, old - quantity⟩])
  | .set =>
      (.ok quantity, setQty t1 p l quantity, log ++ [⟨.stockSet, old, quantity⟩])

/-- Model of `StockTransferView.post` plus `StockTransferSerializer.validate`:
serializer field validation rejects `quantity < 1`; `validate` rejects
equal locations first, then a missing source row, then insufficient source
stock; the view then debits the source, credits (get-or-create) the
destination and writes one `STOCK_TRANSFERRED` audit entry, all in one
transaction. -/
def transferStock (t : StockTable) (log : List LogEntry)
    (p lFrom lTo : Nat) (quantity : Nat) :
    Except Err (Nat × Nat) × StockTable × List LogEntry :=
  if quantity = 0 then (.error .invalidQuantity, t, log)
  else if lFrom = lTo then (.error .sameLocation, t, log)
  else
    match lookupQty t p lFrom with
    | none => (.error .noStockRecord, t, log)
    | some srcQty =>
      if srcQty < quantity then (.error (.insufficientStock srcQty), t, log)
      else
        let t1 := setQty t p lFrom (srcQty - quantity)
        let t2 := getOrCreate t1 p lTo
        let destOld := (lookupQty t2 p lTo).getD 0
        let t3 := setQty t2 p lTo (destOld + quantity)
        (.ok (srcQty - quantity, destOld + quantity), t3,
         log ++ [⟨.stockTransferred, srcQty - quantity, destOld + quantity⟩])

/-- Invoice statuses (`sales.Invoice.STATUS_CHOICES`). -/
inductive InvStatus
  | draft
  | unpaid
  | paid
  | overdue
  | partiallyPaid
deriving Repr, DecidableEq

/-- An `InvoiceLineItem` as used by stock reduction: the referenced product
and the quantity sold (name/SKU/price snapshots are irrelevant here). -/
structure LineItem where
  product : Nat
  quantity : Nat
deriving Repr, DecidableEq

/-- The `sales.Invoice` fields the payment / stock-reduction coordinator
reads and writes.  Amounts are in cents, dates are day numbers. -/
structure Invoice where
  company : Nat
  status : InvStatus
  totalAmount : Int
  amountPaid : Int
  dueDate : Int
  paidDate : Option Int
  stockReduced : Bool
  lineItems : List LineItem
deriving Repr, DecidableEq

/-- The state touched by the sales coordinator: the invoice, the amounts of
its `Payment` rows, the product and stock tables, and the audit log. -/
structure SState where
  invoice : Invoice
  payments : List Int
  products : List ProdRow
  stocks : StockTable
  log : List LogEntry
deriving Repr, DecidableEq

/-- Owning company of a product (`product.company_id`). -/
def prodCompany (prods : List ProdRow) (pid : Nat) : Option Nat :=
  (prods.find? (fun q => q.id == pid)).map ProdRow.company

/-- The queryset filter of `Invoice.reduce_stock`:
`Stock.objects.filter(product=li.product, product__company=c)`. -/
def rowMatches (prods : List ProdRow) (c pid : Nat) (r : StockRow) : Bool :=
  r.product == pid && prodCompany prods r.product == some c

/-- Insert a row into a list sorted by descending quantity. -/
def insertDesc (r : StockRow) : List StockRow → List StockRow
  | [] => [r]
  | x :: xs => if x.quantity ≤ r.quantity then r :: x :: xs else x :: insertDesc r xs

/-- Sort rows by descending quantity, as the reduce-stock queryset orders
its rows. -/
def sortDescQty : List StockRow → List StockRow
  | [] => []
  | r :: rs => insertDesc r (sortDescQty rs)

/-- The inner loop of `Invoice.reduce_stock` over the (descending-quantity)
stock rows of one line item's product: returns the updated rows, the
`STOCK_REMOVED` audit entries written (one per row visited), and the
remaining unsatisfied quantity.  Mirrors the source exactly: stop when the
need is satisfied; a row with enough stock is debited by the remainder;
otherwise the row is emptied and the loop continues. -/
def drain : Nat → List StockRow → List StockRow × List LogEntry × Nat
  | remaining, [] => ([], [], remaining)
  | remaining, r :: rs =>
    if remaining = 0 then (r :: rs, [], 0)
    else if remaining ≤ r.quantity then
      (⟨r.product, r.location, r.quantity - remaining⟩ :: rs,
       [⟨.stockRemoved, remaining, 0⟩], 0)
    else
      let res := drain (remaining - r.quantity) rs
      (⟨r.product, r.location, 0⟩ :: res.1,
       ⟨.stockRemoved, r.quantity, 0⟩ :: res.2.1, res.2.2)

/-- Stock reduction for one invoice line (`Invoice.reduce_stock`, body of
the outer `for line_item ...` loop): drain the tenant's stock rows of the
line's product, highest quantity first; when a shortfall remains, append a
non-fatal `STOCK_LEVEL_ADJUSTED` warning entry (needed and short
quantities) instead of raising.  Stock rows live in an unordered table, so
the untouched rows and the drained rows are recombined by concatenation. -/
def reduceLine (prods : List ProdRow) (c : Nat) (li : LineItem)
    (t : StockTable) (log : List LogEntry) : StockTable × List LogEntry :=
  let rows := sortDescQty (t.filter (rowMatches prods c li.product))
  let rest := t.filter (fun r => !rowMatches prods c li.product r)
  let res := drain li.quantity rows
  let log1 := log ++ res.2.1
  (rest ++ res.1,
   if 0 < res.2.2 then log1 ++ [⟨.stockLevelAdjusted, li.quantity, res.2.2⟩] else log1)

/-- Model of `Invoice.reduce_stock`: a no-op when `stock_reduced` is already set;
otherwise drain every line item in order and set `stock_reduced = True`
(write-once flag, persisted with `update_fields` so no save-hook re-runs). -/
def reduceStock (s : SState) : SState :=
  if s.invoice.stockReduced then s
  else
    let res := s.invoice.lineItems.foldl
      (fun (acc : StockTable × List LogEntry) li =>
        reduceLine s.products s.invoice.company li acc.1 acc.2)
      (s.stocks, s.log)
    { s with stocks := res.1, log := res.2,
             invoice := { s.invoice with stockReduced := true } }

/-- The status derivation of `Invoice.update_status`, as a function of the
current status, paid and total amounts, due date and today's date.  The two
early `return` branches of the source (DRAFT with nothing paid) leave the
status unchanged. -/
def nextStatus (st : InvStatus) (amountPaid totalAmount dueDate today : Int) :
    InvStatus :=
  if st = InvStatus.draft ∧ amountPaid = 0 then st
  else if amountPaid = 0 then
    if st = InvStatus.draft then st
    else if dueDate < today then InvStatus.overdue
    else InvStatus.unpaid
  else if totalAmount ≤ amountPaid then InvStatus.paid
  else if dueDate < today then InvStatus.overdue
  else InvStatus.partiallyPaid

/-- Model of `Invoice.update_status`: derive the status, set `paid_date` on first
entry into PAID, and — when the status just changed to PAID and
`stock_reduced` is still false — invoke `reduce_stock`. -/
def updateStatus (today : Int) (s : SState) : SState :=
  let oldSt := s.invoice.status
  let newSt := nextStatus oldSt s.invoice.amountPaid s.invoice.totalAmount
    s.invoice.dueDate today
  let paid' := if newSt = InvStatus.paid ∧ oldSt ≠ InvStatus.paid
    then some today else s.invoice.paidDate
  let s1 := { s with invoice := { s.invoice with status := newSt, paidDate := paid' } }
  if newSt = InvStatus.paid ∧ oldSt ≠ InvStatus.paid ∧ s1.invoice.stockReduced = false
  then reduceStock s1 else s1

/-- Sum of a list of payment amounts. -/
def sumAmounts (ps : List Int) : Int := ps.foldl (fun a b => a + b) 0

/-- Model of `Payment.save`: persist the payment, then recompute the invoice's
`amount_paid` as the *full sum* of all its payments (never an increment)
and run `update_status`. -/
def paymentSave (amount : Int) (today : Int) (s : SState) : SState :=
  let payments' := s.payments ++ [amount]
  let s1 := { s with payments := payments',
                     invoice := { s.invoice with amountPaid := sumAmounts payments' } }
  updateStatus today s1

/-- Remaining balance of an invoice (the amount-due property). -/
def amountDue (inv : Invoice) : Int := inv.totalAmount - inv.amountPaid

/-- Model of `InvoiceViewSet.record_payment`: reject a missing/zero amount, a
non-positive amount, and an amount exceeding the outstanding balance
(leaving the invoice untouched); otherwise create the `Payment`, whose
`save` updates the invoice. -/
def recordPayment (amount : Int) (today : Int) (s : SState) : Except Err SState :=
  if amount = 0 then .error .amountRequired
  else if amount ≤ 0 then .error .amountNotPositive
  else if amountDue s.invoice < amount then .error .paymentExceedsOutstanding
  else .ok (paymentSave amount today s)

/-- The operations that can touch an invoice's stock-reduction path after
the invoice exists: the conversion-time direct `reduce_stock` call
(`QuoteViewSet.convert_to_invoice`), a `record_payment` request, and a bare
`update_status` re-derivation. -/
inductive SOp
  | convertReduce
  | payment (amount : Int) (today : Int)
  | statusRefresh (today : Int)

/-- Apply one operation; a rejected payment leaves the state unchanged. -/
def applySOp (s : SState) : SOp → SState
  | .convertReduce => reduceStock s
  | .payment amount today =>
      match recordPayment amount today s with
      | .ok s' => s'
      | .error _ => s
  | .statusRefresh today => updateStatus today s

/-- Run a sequence of operations left to right. -/
def runSOps (s : SState) (ops : List SOp) : SState := ops.foldl applySOp s

/-- Purchase-order statuses (`purchasing.PurchaseOrder.STATUS_CHOICES`). -/
inductive POStatus
  | draft
  | sent
  | confirmed
  | partiallyReceived
  | received
  | cancelled
deriving Repr, DecidableEq

/-- A `PurchaseOrderLineItem` as used by receiving and stock addition. -/
structure POLine where
  id : Nat
  product : Nat
  quantityOrdered : Nat
  quantityReceived : Nat
deriving Repr, DecidableEq

/-- The `purchasing.PurchaseOrder` fields receiving and stock addition
read and write. -/
structure PO where
  status : POStatus
  lines : List POLine
  receivedDate : Option Int
  receivingLocation : Nat
  stockAdded : Bool
deriving Repr, DecidableEq

/-- The loop of `receive_items` over the submitted payload: overwrite each
named line's `quantity_received`; ids matching no line are skipped. -/
def applyUpdates (lines : List POLine) (updates : List (Nat × Nat)) : List POLine :=
  updates.foldl
    (fun ls u =>
      ls.map (fun li => if li.id = u.1 then { li with quantityReceived := u.2 } else li))
    lines

/-- Model of `PurchaseOrderViewSet.receive_items`: reject an already-received or a
cancelled order and an empty payload; otherwise overwrite the submitted
lines' received quantities and re-derive the status — RECEIVED (with the
received date) when every line is fully received, PARTIALLY_RECEIVED when
some line has a positive received quantity, CONFIRMED otherwise. -/
def receiveItems (today : Int) (updates : List (Nat × Nat)) (po : PO) :
    Except Err PO :=
  if po.status = POStatus.received then .error .alreadyReceived
  else if po.status = POStatus.cancelled then .error .cancelledOrder
  else if updates.isEmpty then .error .noLineItems
  else
    let lines' := applyUpdates po.lines updates
    if lines'.all (fun li => li.quantityOrdered ≤ li.quantityReceived) then
      .ok { po with lines := lines', status := POStatus.received,
                    receivedDate := some today }
    else if lines'.any (fun li => 0 < li.quantityReceived) then
      .ok { po with lines := lines', status := POStatus.partiallyReceived }
    else
      .ok { po with lines := lines', status := POStatus.confirmed }

/-- State touched by `PurchaseOrder.add_stock_to_inventory`: the order, the
stock table and the audit log. -/
structure PState where
  po : PO
  stocks : StockTable
  log : List LogEntry
deriving Repr, DecidableEq

/-- Model of `PurchaseOrder.add_stock_to_inventory`: rejected when stock was already
added or the order is not fully received; otherwise get-or-create the stock
row of each line's product at the receiving location, add the received
quantity, and set the write-once `stock_added` flag.  The source writes no
audit entries on this path, so `log` is returned unchanged. -/
def addStockToInventory (s : PState) : Except Err PState :=
  if s.po.stockAdded then .error .alreadyAdded
  else if s.po.status ≠ POStatus.received then .error .notYetReceived
  else
    let stocks' := s.po.lines.foldl
      (fun t li =>
        let t1 := getOrCreate t li.product s.po.receivingLocation
        let old := (lookupQty t1 li.product s.po.receivingLocation).getD 0
        setQty t1 li.product s.po.receivingLocation (old + li.quantityReceived))
      s.stocks
    .ok { s with stocks := stocks', po := { s.po with stockAdded := true } }

/-- Total quantity held by a list of stock rows. -/
def sumQ (l : List StockRow) : Nat := (l.map StockRow.quantity).sum

/-- Tenant-wide quantity of a product visible to `Invoice.reduce_stock`'s
queryset filter. -/
def availableQty (prods : List ProdRow) (c pid : Nat) (t : StockTable) : Nat :=
  sumQ (t.filter (rowMatches prods c pid))

/-- Number of non-fatal shortfall warnings (`STOCK_LEVEL_ADJUSTED` entries)
in an audit log. -/
def countShortfall (log : List LogEntry) : Nat :=
  (log.filter (fun e => e.action == ActionType.stockLevelAdjusted)).length

/-- A concrete sales state used by scenario theorems: an invoice of 300.00
(30000 cents) with one line of 12 units of product 1, nothing paid, stock
not yet reduced, and 13 units on hand across two locations. -/
def exState : SState :=
  { invoice := { company := 0, status := InvStatus.unpaid, totalAmount := 30000,
                 amountPaid := 0, dueDate := 100, paidDate := none,
                 stockReduced := false, lineItems := [⟨1, 12⟩] }
    payments := []
    products := [⟨1, 0⟩, ⟨2, 0⟩]
    stocks := [⟨1, 1, 10⟩, ⟨1, 2, 3⟩, ⟨2, 1, 7⟩]
    log := [] }

/-- The state `exState` after its stock has been reduced once (flag set). -/
def exReduced : SState := reduceStock exState

/-- A concrete received purchase order holding one fully received line of
5 units of product 1, stock not yet added. -/
def exPState : PState :=
  { po := { status := POStatus.received, lines := [⟨1, 1, 5, 5⟩],
            receivedDate := some 7, receivingLocation := 1, stockAdded := false }
    stocks := [⟨1, 1, 10⟩]
    log := [] }

theorem lookupQty_isSome_of_eq {t : StockTable} {p l q : Nat}
    (h : lookupQty t p l = some q) : (lookupQty t p l).isSome := by
  simp [h]

theorem hasKey_eq_isSome (t : StockTable) (p l : Nat) :
    hasKey t p l = (lookupQty t p l).isSome := by
  induction t with
  | nil => simp [hasKey, lookupQty]
  | cons r rs ih =>
    by_cases hk : r.product = p ∧ r.location = l
    · simp [hasKey, lookupQty, hk]
    · simp [hasKey, lookupQty, hk, ih]

theorem getOrCreate_of_isSome {t : StockTable} {p l : Nat}
    (h : (lookupQty t p l).isSome) : getOrCreate t p l = t := by
  simp [getOrCreate, hasKey_eq_isSome, h]

theorem lookupQty_append_none {t : StockTable} {p l : Nat} (t' : StockTable)
    (h : lookupQty t p l = none) :
    lookupQty (t ++ t') p l = lookupQty t' p l := by
  induction t with
  | nil => simp
  | cons r rs ih =>
    by_cases hk : r.product = p ∧ r.location = l
    · simp [lookupQty, hk] at h
    · simp [lookupQty, hk] at h ⊢
      exact ih h

theorem getOrCreate_of_none {t : StockTable} {p l : Nat}
    (h : lookupQty t p l = none) :
    getOrCreate t p l = t ++ [⟨p, l, 0⟩] := by
  have : hasKey t p l = false := by simp [hasKey_eq_isSome, h]
  simp [getOrCreate, this]

theorem lookupQty_getOrCreate_self (t : StockTable) (p l : Nat) :
    lookupQty (getOrCreate t p l) p l = some ((lookupQty t p l).getD 0) := by
  cases h : lookupQty t p l with
  | some q => rw [getOrCreate_of_isSome (lookupQty_isSome_of_eq h), h]; rfl
  | none =>
    rw [getOrCreate_of_none h, lookupQty_append_none _ h]
    simp [lookupQty]

theorem lookupQty_append_some {t : StockTable} {p l q : Nat} (t' : StockTable)
    (h : lookupQty t p l = some q) :
    lookupQty (t ++ t') p l = some q := by
  induction t with
  | nil => simp [lookupQty] at h
  | cons r rs ih =>
    by_cases hk : r.product = p ∧ r.location = l
    · simp [lookupQty, hk] at h ⊢
      exact h
    · simp [lookupQty, hk] at h ⊢
      exact ih h

theorem lookupQty_getOrCreate_ne (t : StockTable) {p l p' l' : Nat}
    (h : ¬(p = p' ∧ l = l')) :
    lookupQty (getOrCreate t p l) p' l' = lookupQty t p' l' := by
  by_cases hs : (lookupQty t p l).isSome
  · rw [getOrCreate_of_isSome hs]
  · rw [getOrCreate_of_none (Option.not_isSome_iff_eq_none.mp hs)]
    cases hq : lookupQty t p' l' with
    | some q => exact lookupQty_append_some _ hq
    | none =>
      rw [lookupQty_append_none _ hq]
      simp [lookupQty, h]

theorem lookupQty_setQty_self {t : StockTable} {p l : Nat} (n : Nat)
    (h : (lookupQty t p l).isSome) :
    lookupQty (setQty t p l n) p l = some n := by
  induction t with
  | nil => simp [lookupQty] at h
  | cons r rs ih =>
    by_cases hk : r.product = p ∧ r.location = l
    · simp [lookupQty, setQty, hk]
    · simp [lookupQty, setQty, hk] at h ⊢
      exact ih h

theorem lookupQty_setQty_ne (t : StockTable) {p l p' l' : Nat} (n : Nat)
    (h : ¬(p = p' ∧ l = l')) :
    lookupQty (setQty t p l n) p' l' = lookupQty t p' l' := by
  induction t with
  | nil => simp [setQty, lookupQty]
  | cons r rs ih =>
    by_cases hk : r.product = p ∧ r.location = l
    · have hk' : ¬(r.product = p' ∧ r.location = l') := by
        rintro ⟨hp, hl⟩
        exact h ⟨hk.1 ▸ hp, hk.2 ▸ hl⟩
      simp only [setQty, if_pos hk, lookupQty]
      split_ifs <;> simp_all
    · by_cases hk' : r.product = p' ∧ r.location = l'
      · have h2 : ¬(p' = p ∧ l' = l) := by
          rintro ⟨hp, hl⟩
          exact h ⟨hp.symm, hl.symm⟩
        simp [setQty, lookupQty, hk, hk', h2]
      · simp [setQty, lookupQty, hk, hk']
        exact ih

theorem reduceStock_of_reduced {s : SState} (h : s.invoice.stockReduced = true) :
    reduceStock s = s := by
  simp [reduceStock, h]

theorem reduceStock_flag (s : SState) :
    (reduceStock s).invoice.stockReduced = true := by
  by_cases h : s.invoice.stockReduced
  · simp [reduceStock, h]
  · simp [reduceStock, h]

theorem reduceStock_payments (s : SState) :
    (reduceStock s).payments = s.payments := by
  by_cases h : s.invoice.stockReduced <;> simp [reduceStock, h]

theorem reduceStock_amountPaid (s : SState) :
    (reduceStock s).invoice.amountPaid = s.invoice.amountPaid := by
  by_cases h : s.invoice.stockReduced <;> simp [reduceStock, h]

theorem updateStatus_of_reduced {s : SState} (today : Int)
    (h : s.invoice.stockReduced = true) :
    (updateStatus today s).stocks = s.stocks ∧
    (updateStatus today s).log = s.log ∧
    (updateStatus today s).invoice.stockReduced = true := by
  simp [updateStatus, h]

theorem updateStatus_payments (today : Int) (s : SState) :
    (updateStatus today s).payments = s.payments := by
  simp only [updateStatus]
  split_ifs <;> simp [reduceStock_payments]

theorem updateStatus_amountPaid (today : Int) (s : SState) :
    (updateStatus today s).invoice.amountPaid = s.invoice.amountPaid := by
  simp only [updateStatus]
  split_ifs <;> simp [reduceStock_amountPaid]

theorem updateStatus_stocks_of_flag_false {today : Int} {s : SState}
    (h : (updateStatus today s).invoice.stockReduced = false) :
    (updateStatus today s).stocks = s.stocks ∧
    s.invoice.stockReduced = false := by
  simp only [updateStatus] at h ⊢
  split_ifs at h ⊢ <;> first
    | (rw [reduceStock_flag] at h
       exact absurd h (by simp))
    | exact ⟨rfl, h⟩

theorem paymentSave_def (amount today : Int) (s : SState) :
    paymentSave amount today s = updateStatus today
      { s with payments := s.payments ++ [amount],
               invoice := { s.invoice with
                 amountPaid := sumAmounts (s.payments ++ [amount]) } } := rfl

theorem recordPayment_ok {amount today : Int} {s s' : SState}
    (h : recordPayment amount today s = Except.ok s') :
    s' = paymentSave amount today s := by
  unfold recordPayment at h
  split_ifs at h
  exact (Except.ok.inj h).symm

theorem applySOp_of_reduced {s : SState} (op : SOp)
    (h : s.invoice.stockReduced = true) :
    (applySOp s op).stocks = s.stocks ∧
    (applySOp s op).log = s.log ∧
    (applySOp s op).invoice.stockReduced = true := by
  cases op with
  | convertReduce =>
    rw [show applySOp s SOp.convertReduce = reduceStock s from rfl,
        reduceStock_of_reduced h]
    exact ⟨rfl, rfl, h⟩
  | payment amount today =>
    cases hrp : recordPayment amount today s with
    | error e =>
      have heq : applySOp s (SOp.payment amount today) = s := by
        simp [applySOp, hrp]
      rw [heq]
      exact ⟨rfl, rfl, h⟩
    | ok s' =>
      have heq : applySOp s (SOp.payment amount today) = s' := by
        simp [applySOp, hrp]
      rw [heq, recordPayment_ok hrp, paymentSave_def]
      exact updateStatus_of_reduced today h
  | statusRefresh today =>
    exact updateStatus_of_reduced today h

theorem runSOps_of_reduced (ops : List SOp) :
    ∀ s : SState, s.invoice.stockReduced = true →
    (runSOps s ops).stocks = s.stocks ∧
    (runSOps s ops).invoice.stockReduced = true := by
  induction ops with
  | nil => exact fun s h => ⟨rfl, h⟩
  | cons op rest ih =>
    intro s h
    have h1 := applySOp_of_reduced op h
    have h2 := ih (applySOp s op) h1.2.2
    refine ⟨?_, ?_⟩
    · rw [show runSOps s (op :: rest) = runSOps (applySOp s op) rest from rfl,
          h2.1, h1.1]
    · rw [show runSOps s (op :: rest) = runSOps (applySOp s op) rest from rfl]
      exact h2.2

theorem applySOp_stocks_of_flag_false {s : SState} {op : SOp}
    (h : (applySOp s op).invoice.stockReduced = false) :
    (applySOp s op).stocks = s.stocks ∧ s.invoice.stockReduced = false := by
  cases op with
  | convertReduce =>
    rw [show applySOp s SOp.convertReduce = reduceStock s from rfl] at h
    rw [reduceStock_flag] at h
    exact absurd h (by simp)
  | payment amount today =>
    cases hrp : recordPayment amount today s with
    | error e =>
      have heq : applySOp s (SOp.payment amount today) = s := by
        simp [applySOp, hrp]
      rw [heq] at h ⊢
      exact ⟨rfl, h⟩
    | ok s' =>
      have heq : applySOp s (SOp.payment amount today) = s' := by
        simp [applySOp, hrp]
      rw [heq] at h ⊢
      rw [recordPayment_ok hrp, paymentSave_def] at h ⊢
      exact updateStatus_stocks_of_flag_false h
  | statusRefresh today =>
    exact updateStatus_stocks_of_flag_false h


/-- Claim C1: once an invoice's `stock_reduced` flag is true, any sequence
of reduction-path operations (conversion-time `reduce_stock`, payments,
status refreshes) leaves every stock quantity unchanged and the flag true;
and no single operation changes the stocks while leaving the flag false,
nor resets a true flag — so the flag flips false→true at most once and the
invoice's stock reduction is performed at most once in total. -/
theorem invoice_stock_reduction_at_most_once :
    (∀ (ops : List SOp) (s : SState), s.invoice.stockReduced = true →
      (runSOps s ops).stocks = s.stocks ∧
      (runSOps s ops).invoice.stockReduced = true) ∧
    (∀ (op : SOp) (s : SState), (applySOp s op).invoice.stockReduced = false →
      (applySOp s op).stocks = s.stocks ∧ s.invoice.stockReduced = false) :=
  ⟨fun ops s h => runSOps_of_reduced ops s h,
   fun _ s h => applySOp_stocks_of_flag_false h⟩

/-- Witness for C1: on the concrete already-reduced state, a conversion
re-trigger followed by a full payment changes no stock quantity. -/
theorem invoice_stock_reduction_at_most_once_witness :
    (runSOps exReduced [SOp.convertReduce, SOp.payment 30000 50]).stocks
      = exReduced.stocks ∧
    (runSOps exReduced [SOp.convertReduce, SOp.payment 30000 50]).invoice.stockReduced
      = true :=
  invoice_stock_reduction_at_most_once.1 [SOp.convertReduce, SOp.payment 30000 50]
    exReduced (by decide)

/-- Claim C2: creating a Payment always leaves the invoice's `amount_paid`
equal to the full sum of all its payments' amounts — a recomputed sum, not
an increment, so the invariant holds after every creation regardless of the
previous `amount_paid` value or the order of earlier payments. -/
theorem amount_paid_eq_sum_of_payments (amount today : Int) (s : SState) :
    (paymentSave amount today s).invoice.amountPaid
      = sumAmounts (paymentSave amount today s).payments ∧
    (paymentSave amount today s).payments = s.payments ++ [amount] := by
  rw [paymentSave_def]
  constructor
  · rw [updateStatus_amountPaid, updateStatus_payments]
  · rw [updateStatus_payments]

/-- Claim C3 counterexample: two invoices with the same quadruple
`(amountPaid, totalAmount, dueDate, today) = (0, 30000, 10, 5)` but
statuses DRAFT and UNPAID derive different statuses, so derivation is not
a pure function of the quadruple alone. -/
theorem status_derivation_not_pure_in_quadruple :
    nextStatus InvStatus.draft 0 30000 10 5 = InvStatus.draft ∧
    nextStatus InvStatus.unpaid 0 30000 10 5 = InvStatus.unpaid ∧
    InvStatus.draft ≠ InvStatus.unpaid := by
  refine ⟨by decide, by decide, by decide⟩

/-- Claim C3 (amended): status derivation is a pure function of the
quintuple `(currentStatus, amountPaid, totalAmount, dueDate, today)`;
whenever `amountPaid ≠ 0` it does not depend on the current status at all;
and re-deriving from unchanged inputs is idempotent. -/
theorem status_derivation_idempotent :
    (∀ (st : InvStatus) (ap tot due today : Int),
      nextStatus (nextStatus st ap tot due today) ap tot due today
        = nextStatus st ap tot due today) ∧
    (∀ (st st' : InvStatus) (ap tot due today : Int), ap ≠ 0 →
      nextStatus st ap tot due today = nextStatus st' ap tot due today) := by
  constructor
  · intro st ap tot due today
    by_cases hap : ap = 0 <;> by_cases hd : due < today <;>
      by_cases ht : tot ≤ ap <;> cases st <;>
      simp [nextStatus, hap, hd, ht]
  · intro st st' ap tot due today hap
    simp [nextStatus, hap]

/-- Witness for C3's amended theorem: with 100 paid on a 300 invoice the
derivation ignores the current status. -/
theorem status_derivation_idempotent_witness :
    nextStatus InvStatus.draft 10000 30000 10 5
      = nextStatus InvStatus.overdue 10000 30000 10 5 :=
  status_derivation_idempotent.2 InvStatus.draft InvStatus.overdue
    10000 30000 10 5 (by decide)

/-- Claim C4: `record_payment` rejects non-positive amounts and amounts
exceeding the outstanding balance (an error response carries no state
change); and in the concrete scenario — invoice total 300.00, nothing paid,
stock not reduced — a payment of 300.00 drives the status to PAID, sets
`stock_reduced`, leaves nothing due, and a further payment of 0.01 fails
with the exceeds-outstanding error. -/
theorem record_payment_guards_and_scenario :
    (∀ (amount today : Int) (s : SState), amount ≤ 0 →
      recordPayment amount today s
        = Except.error (if amount = 0 then Err.amountRequired else Err.amountNotPositive)) ∧
    (∀ (amount today : Int) (s : SState), 0 < amount →
      amountDue s.invoice < amount →
      recordPayment amount today s = Except.error Err.paymentExceedsOutstanding) ∧
    (recordPayment 30000 50 exState = Except.ok (paymentSave 30000 50 exState) ∧
     (paymentSave 30000 50 exState).invoice.status = InvStatus.paid ∧
     (paymentSave 30000 50 exState).invoice.stockReduced = true ∧
     amountDue (paymentSave 30000 50 exState).invoice = 0 ∧
     recordPayment 1 50 (paymentSave 30000 50 exState)
       = Except.error Err.paymentExceedsOutstanding) := by
  refine ⟨?_, ?_, ?_⟩
  · intro amount today s hle
    by_cases h0 : amount = 0
    · simp [recordPayment, h0]
    · simp [recordPayment, h0, hle]
  · intro amount today s hpos hdue
    have h0 : ¬ amount = 0 := by omega
    have h1 : ¬ amount ≤ 0 := by omega
    simp [recordPayment, h0, h1]
    omega
  · refine ⟨by decide, by decide, by decide, by decide, by decide⟩

/-- Witness for C4: the guards fire at concrete inputs. -/
theorem record_payment_guards_and_scenario_witness :
    recordPayment (-5) 0 exState
      = Except.error (if (-5 : Int) = 0 then Err.amountRequired else Err.amountNotPositive) ∧
    recordPayment 50000 0 exState = Except.error Err.paymentExceedsOutstanding :=
  ⟨record_payment_guards_and_scenario.1 (-5) 0 exState (by decide),
   record_payment_guards_and_scenario.2.1 50000 0 exState (by decide) (by decide)⟩

/-- Claim C5 counterexample: with 5 units at the source and a request for
10 between identical locations, the source quantity is below the request
yet the failure reported is `SameLocation`, not `InsufficientStock` — the
claim's unconditional "fails with InsufficientStock whenever source <
requested" is false. -/
theorem transfer_same_location_precedence_cex :
    (5 : Nat) < 10 ∧
    lookupQty [⟨1, 1, 5⟩] 1 1 = some 5 ∧
    (transferStock [⟨1, 1, 5⟩] [] 1 1 1 10).1 = Except.error Err.sameLocation := by
  refine ⟨by decide, by decide, by decide⟩

/-- Claim C5 (amended): a zero quantity is rejected by field validation;
with a positive quantity, equal locations always fail `SameLocation` (this
check takes precedence); with distinct locations an under-stocked source
row fails `InsufficientStock`; every failure leaves the stock table and the
audit log exactly as before the call; and a successful transfer decreases
the source quantity and increases the destination quantity by exactly the
transferred amount. -/
theorem transfer_checks_and_atomicity :
    ∀ (t : StockTable) (log : List LogEntry) (p l1 l2 q : Nat), 0 < q →
      (l1 = l2 → (transferStock t log p l1 l2 q).1 = Except.error Err.sameLocation) ∧
      (∀ e, (transferStock t log p l1 l2 q).1 = Except.error e →
        (transferStock t log p l1 l2 q).2.1 = t ∧
        (transferStock t log p l1 l2 q).2.2 = log) ∧
      (∀ sq, l1 ≠ l2 → lookupQty t p l1 = some sq → sq < q →
        (transferStock t log p l1 l2 q).1 = Except.error (Err.insufficientStock sq)) ∧
      (∀ sq, l1 ≠ l2 → lookupQty t p l1 = some sq → q ≤ sq →
        (transferStock t log p l1 l2 q).1
          = Except.ok (sq - q, (lookupQty t p l2).getD 0 + q) ∧
        lookupQty (transferStock t log p l1 l2 q).2.1 p l1 = some (sq - q) ∧
        lookupQty (transferStock t log p l1 l2 q).2.1 p l2
          = some ((lookupQty t p l2).getD 0 + q)) := by
  intro t log p l1 l2 q hq
  have hq0 : ¬ q = 0 := Nat.pos_iff_ne_zero.mp hq
  refine ⟨?_, ?_, ?_, ?_⟩
  · intro heq
    simp [transferStock, hq0, heq]
  · intro e herr
    unfold transferStock at herr ⊢
    split_ifs at herr ⊢ with h1
    · exact ⟨rfl, rfl⟩
    · cases hsrc : lookupQty t p l1 with
      | none => simp [hsrc]
      | some sq =>
        by_cases h3 : sq < q
        · simp [hsrc, h3]
        · simp [hsrc, h3] at herr
  · intro sq hne hsrc hlt
    simp [transferStock, hq0, hne, hsrc, hlt]
  · intro sq hne hsrc hle
    have hnlt : ¬ sq < q := not_lt.mpr hle
    have hne2 : ¬(p = p ∧ l1 = l2) := by simp [hne]
    have hne' : l2 ≠ l1 := Ne.symm hne
    have hne3 : ¬(p = p ∧ l2 = l1) := by simp [hne']
    have e1 : lookupQty (setQty t p l1 (sq - q)) p l2 = lookupQty t p l2 :=
      lookupQty_setQty_ne t (sq - q) hne2
    have e2 : lookupQty (getOrCreate (setQty t p l1 (sq - q)) p l2) p l2
        = some ((lookupQty t p l2).getD 0) := by
      rw [lookupQty_getOrCreate_self, e1]
    have htr : transferStock t log p l1 l2 q
        = (Except.ok (sq - q, (lookupQty t p l2).getD 0 + q),
           setQty (getOrCreate (setQty t p l1 (sq - q)) p l2) p l2
             ((lookupQty t p l2).getD 0 + q),
           log ++ [⟨ActionType.stockTransferred, sq - q,
                    (lookupQty t p l2).getD 0 + q⟩]) := by
      simp [transferStock, hq0, hne, hsrc, hnlt, e2]
    refine ⟨by rw [htr], ?_, ?_⟩
    · rw [htr]
      show lookupQty (setQty _ p l2 _) p l1 = _
      rw [lookupQty_setQty_ne _ _ hne3, lookupQty_getOrCreate_ne _ hne3]
      exact lookupQty_setQty_self _ (lookupQty_isSome_of_eq hsrc)
    · rw [htr]
      show lookupQty (setQty _ p l2 _) p l2 = _
      exact lookupQty_setQty_self _ (by simp [e2])

/-- Witness for C5's amended theorem: same-location rejection, failure
atomicity, insufficiency with distinct locations, and an exact successful
transfer, all at concrete inputs. -/
theorem transfer_checks_and_atomicity_witness :
    ((transferStock [⟨1, 1, 5⟩] [] 1 1 1 3).1 = Except.error Err.sameLocation) ∧
    ((transferStock [⟨1, 1, 5⟩] [] 1 1 2 9).2.1 = [⟨1, 1, 5⟩] ∧
     (transferStock [⟨1, 1, 5⟩] [] 1 1 2 9).2.2 = []) ∧
    ((transferStock [⟨1, 1, 5⟩] [] 1 1 2 9).1
       = Except.error (Err.insufficientStock 5)) ∧
    ((transferStock [⟨1, 1, 5⟩] [] 1 1 2 3).1
       = Except.ok (5 - 3, (lookupQty [⟨1, 1, 5⟩] 1 2).getD 0 + 3) ∧
     lookupQty (transferStock [⟨1, 1, 5⟩] [] 1 1 2 3).2.1 1 1 = some (5 - 3) ∧
     lookupQty (transferStock [⟨1, 1, 5⟩] [] 1 1 2 3).2.1 1 2
       = some ((lookupQty [⟨1, 1, 5⟩] 1 2).getD 0 + 3)) :=
  ⟨(transfer_checks_and_atomicity [⟨1, 1, 5⟩] [] 1 1 1 3 (by decide)).1 rfl,
   (transfer_checks_and_atomicity [⟨1, 1, 5⟩] [] 1 1 2 9 (by decide)).2.1
     (Err.insufficientStock 5) (by decide),
   (transfer_checks_and_atomicity [⟨1, 1, 5⟩] [] 1 1 2 9 (by decide)).2.2.1
     5 (by decide) (by decide) (by decide),
   (transfer_checks_and_atomicity [⟨1, 1, 5⟩] [] 1 1 2 3 (by decide)).2.2.2
     5 (by decide) (by decide) (by decide)⟩

/-- Claim C6: on a stock row currently holding `q`, `add` increases the
quantity by exactly the given amount, `set` replaces it unconditionally,
and `remove` fails with `InsufficientStock` exactly when the request
exceeds the current quantity — leaving the quantity unchanged on failure
and decreasing it by exactly the request otherwise. -/
theorem adjust_actions_correct :
    ∀ (t : StockTable) (log : List LogEntry) (p l q n : Nat),
      lookupQty t p l = some q →
      ((adjustStock t log p l AdjAction.add n).1 = Except.ok (q + n) ∧
       lookupQty (adjustStock t log p l AdjAction.add n).2.1 p l = some (q + n)) ∧
      ((adjustStock t log p l AdjAction.set n).1 = Except.ok n ∧
       lookupQty (adjustStock t log p l AdjAction.set n).2.1 p l = some n) ∧
      (q < n →
        (adjustStock t log p l AdjAction.remove n).1
          = Except.error (Err.insufficientStock q) ∧
        lookupQty (adjustStock t log p l AdjAction.remove n).2.1 p l = some q) ∧
      (n ≤ q →
        (adjustStock t log p l AdjAction.remove n).1 = Except.ok (q - n) ∧
        lookupQty (adjustStock t log p l AdjAction.remove n).2.1 p l = some (q - n)) := by
  intro t log p l q n hq
  have hs : (lookupQty t p l).isSome := lookupQty_isSome_of_eq hq
  have hg : getOrCreate t p l = t := getOrCreate_of_isSome hs
  refine ⟨⟨?_, ?_⟩, ⟨?_, ?_⟩, fun hlt => ⟨?_, ?_⟩, fun hle => ⟨?_, ?_⟩⟩
  · simp [adjustStock, hg, hq]
  · have ha : (adjustStock t log p l AdjAction.add n).2.1 = setQty t p l (q + n) := by
      simp [adjustStock, hg, hq]
    rw [ha]
    exact lookupQty_setQty_self _ hs
  · simp [adjustStock, hg, hq]
  · have ha : (adjustStock t log p l AdjAction.set n).2.1 = setQty t p l n := by
      simp [adjustStock, hg, hq]
    rw [ha]
    exact lookupQty_setQty_self _ hs
  · simp [adjustStock, hg, hq, hlt]
  · have ha : (adjustStock t log p l AdjAction.remove n).2.1 = t := by
      simp [adjustStock, hg, hq, hlt]
    rw [ha]
    exact hq
  · have hnlt : ¬ q < n := not_lt.mpr hle
    simp [adjustStock, hg, hq, hnlt]
  · have hnlt : ¬ q < n := not_lt.mpr hle
    have ha : (adjustStock t log p l AdjAction.remove n).2.1 = setQty t p l (q - n) := by
      simp [adjustStock, hg, hq, hnlt]
    rw [ha]
    exact lookupQty_setQty_self _ hs

/-- Witness for C6: the scenario of the spec — 10 on hand, remove 4 leaves
6, then removing 10 fails with 6 available and leaves 6 on hand. -/
theorem adjust_actions_correct_witness :
    ((adjustStock [⟨7, 4, 10⟩] [] 7 4 AdjAction.remove 4).1 = Except.ok (10 - 4) ∧
     lookupQty (adjustStock [⟨7, 4, 10⟩] [] 7 4 AdjAction.remove 4).2.1 7 4
       = some (10 - 4)) ∧
    ((adjustStock [⟨7, 4, 6⟩] [] 7 4 AdjAction.remove 10).1
       = Except.error (Err.insufficientStock 6) ∧
     lookupQty (adjustStock [⟨7, 4, 6⟩] [] 7 4 AdjAction.remove 10).2.1 7 4
       = some 6) :=
  ⟨(adjust_actions_correct [⟨7, 4, 10⟩] [] 7 4 10 4 (by decide)).2.2.2 (by decide),
   (adjust_actions_correct [⟨7, 4, 6⟩] [] 7 4 6 10 (by decide)).2.2.1 (by decide)⟩

/-- Claim C10: adjusting a `(product, location)` pair with no stock row
first materialises a zero-quantity row: `add` and `set` then succeed
leaving exactly the requested value, while `remove` of a positive quantity
fails with `InsufficientStock` reporting 0 available (and the fresh row
stays at 0). -/
theorem adjust_missing_row_created_zero :
    ∀ (t : StockTable) (log : List LogEntry) (p l n : Nat),
      lookupQty t p l = none →
      ((adjustStock t log p l AdjAction.add n).1 = Except.ok n ∧
       lookupQty (adjustStock t log p l AdjAction.add n).2.1 p l = some n) ∧
      ((adjustStock t log p l AdjAction.set n).1 = Except.ok n ∧
       lookupQty (adjustStock t log p l AdjAction.set n).2.1 p l = some n) ∧
      (0 < n →
        (adjustStock t log p l AdjAction.remove n).1
          = Except.error (Err.insufficientStock 0) ∧
        lookupQty (adjustStock t log p l AdjAction.remove n).2.1 p l = some 0) := by
  intro t log p l n hnone
  have hg : getOrCreate t p l = t ++ [⟨p, l, 0⟩] := getOrCreate_of_none hnone
  have hl0 : lookupQty (t ++ [⟨p, l, 0⟩]) p l = some 0 := by
    rw [lookupQty_append_none _ hnone]
    simp [lookupQty]
  have hs : (lookupQty (t ++ [⟨p, l, 0⟩]) p l).isSome := by simp [hl0]
  refine ⟨⟨?_, ?_⟩, ⟨?_, ?_⟩, fun hpos => ⟨?_, ?_⟩⟩
  · simp [adjustStock, hg, hl0]
  · have ha : (adjustStock t log p l AdjAction.add n).2.1
        = setQty (t ++ [⟨p, l, 0⟩]) p l n := by
      simp [adjustStock, hg, hl0]
    rw [ha]
    exact lookupQty_setQty_self _ hs
  · simp [adjustStock, hg, hl0]
  · have ha : (adjustStock t log p l AdjAction.set n).2.1
        = setQty (t ++ [⟨p, l, 0⟩]) p l n := by
      simp [adjustStock, hg, hl0]
    rw [ha]
    exact lookupQty_setQty_self _ hs
  · simp [adjustStock, hg, hl0, hpos]
  · have ha : (adjustStock t log p l AdjAction.remove n).2.1 = t ++ [⟨p, l, 0⟩] := by
      simp [adjustStock, hg, hl0, hpos]
    rw [ha]
    exact hl0

/-- Witness for C10: adjusting a product/location with no row. -/
theorem adjust_missing_row_created_zero_witness :
    ((adjustStock [] [] 3 9 AdjAction.add 5).1 = Except.ok 5 ∧
     lookupQty (adjustStock [] [] 3 9 AdjAction.add 5).2.1 3 9 = some 5) ∧
    ((adjustStock [] [] 3 9 AdjAction.set 5).1 = Except.ok 5 ∧
     lookupQty (adjustStock [] [] 3 9 AdjAction.set 5).2.1 3 9 = some 5) ∧
    ((adjustStock [] [] 3 9 AdjAction.remove 5).1
       = Except.error (Err.insufficientStock 0) ∧
     lookupQty (adjustStock [] [] 3 9 AdjAction.remove 5).2.1 3 9 = some 0) :=
  ⟨(adjust_missing_row_created_zero [] [] 3 9 5 rfl).1,
   (adjust_missing_row_created_zero [] [] 3 9 5 rfl).2.1,
   (adjust_missing_row_created_zero [] [] 3 9 5 rfl).2.2 (by decide)⟩

/-- `applyUpdates` with a single submitted line is a plain map overwriting
that line's received quantity. -/
theorem applyUpdates_single (lines : List POLine) (i q : Nat) :
    applyUpdates lines [(i, q)]
      = lines.map
          (fun li => if li.id = i then { li with quantityReceived := q } else li) := by
  simp [applyUpdates]

/-- Claim C8 counterexample: a DRAFT purchase order receiving an update
that leaves every quantity at zero is moved to CONFIRMED — the claim's
"otherwise leaves the status unchanged" is false. -/
theorem receive_items_sets_confirmed_cex :
    receiveItems 0 [(1, 0)]
        (⟨POStatus.draft, [⟨1, 1, 5, 0⟩], none, 1, false⟩ : PO)
      = Except.ok (⟨POStatus.confirmed, [⟨1, 1, 5, 0⟩], none, 1, false⟩ : PO) ∧
    POStatus.draft ≠ POStatus.confirmed := by
  refine ⟨by decide, by decide⟩

/-- Claim C8 (amended): `receive_items` rejects an already-RECEIVED order
with `AlreadyReceived` and a CANCELLED order outright; each submitted
line's `quantity_received` is overwritten — an idempotent set, not an
increment; and after applying all lines the status is derived as RECEIVED
when every line is fully received, PARTIALLY_RECEIVED when some line has a
positive received quantity, and CONFIRMED otherwise (not left unchanged). -/
theorem receive_items_amended :
    (∀ (today : Int) (updates : List (Nat × Nat)) (po : PO),
      po.status = POStatus.received →
      receiveItems today updates po = Except.error Err.alreadyReceived) ∧
    (∀ (today : Int) (updates : List (Nat × Nat)) (po : PO),
      po.status = POStatus.cancelled →
      receiveItems today updates po = Except.error Err.cancelledOrder) ∧
    (∀ (lines : List POLine) (i q : Nat),
      applyUpdates (applyUpdates lines [(i, q)]) [(i, q)]
        = applyUpdates lines [(i, q)] ∧
      ∀ li ∈ applyUpdates lines [(i, q)], li.id = i → li.quantityReceived = q) ∧
    (∀ (today : Int) (updates : List (Nat × Nat)) (po : PO),
      po.status ≠ POStatus.received → po.status ≠ POStatus.cancelled →
      updates ≠ [] →
      receiveItems today updates po = Except.ok
        { po with
            lines := applyUpdates po.lines updates,
            status :=
              if (applyUpdates po.lines updates).all
                  (fun li => li.quantityOrdered ≤ li.quantityReceived)
              then POStatus.received
              else if (applyUpdates po.lines updates).any
                  (fun li => 0 < li.quantityReceived)
              then POStatus.partiallyReceived
              else POStatus.confirmed,
            receivedDate :=
              if (applyUpdates po.lines updates).all
                  (fun li => li.quantityOrdered ≤ li.quantityReceived)
              then some today else po.receivedDate }) := by
  refine ⟨?_, ?_, ?_, ?_⟩
  · intro today updates po h
    simp [receiveItems, h]
  · intro today updates po h
    unfold receiveItems
    rw [if_neg (by simp [h]), if_pos h]
  · intro lines i q
    constructor
    · rw [applyUpdates_single, applyUpdates_single]
      induction lines with
      | nil => rfl
      | cons a as ih =>
        simp only [List.map_cons]
        refine congrArg₂ List.cons ?_ ?_
        · by_cases ha : a.id = i <;> simp [ha]
        · exact ih
    · intro li hmem hid
      rw [applyUpdates_single] at hmem
      obtain ⟨a, ha, rfl⟩ := List.mem_map.mp hmem
      by_cases h : a.id = i
      · simp [h]
      · simp only [if_neg h] at hid ⊢
        exact absurd hid h
  · intro today updates po h1 h2 h3
    have hne : ¬ updates.isEmpty = true := by
      simpa [List.isEmpty_iff] using h3
    unfold receiveItems
    rw [if_neg h1, if_neg h2, if_neg hne]
    dsimp only
    split_ifs with ha hb
    · rfl
    · rfl
    · rfl

/-- Witness for C8's amended theorem: rejection of a received order and the
exact outcome of the counterexample call. -/
theorem receive_items_amended_witness :
    receiveItems 0 [(1, 0)]
        (⟨POStatus.received, [⟨1, 1, 5, 5⟩], some 7, 1, false⟩ : PO)
      = Except.error Err.alreadyReceived ∧
    receiveItems 0 [(1, 0)]
        (⟨POStatus.draft, [⟨1, 1, 5, 0⟩], none, 1, false⟩ : PO)
      = Except.ok
        { (⟨POStatus.draft, [⟨1, 1, 5, 0⟩], none, 1, false⟩ : PO) with
            lines := applyUpdates [⟨1, 1, 5, 0⟩] [(1, 0)],
            status :=
              if (applyUpdates [(⟨1, 1, 5, 0⟩ : POLine)] [(1, 0)]).all
                  (fun li => li.quantityOrdered ≤ li.quantityReceived)
              then POStatus.received
              else if (applyUpdates [(⟨1, 1, 5, 0⟩ : POLine)] [(1, 0)]).any
                  (fun li => 0 < li.quantityReceived)
              then POStatus.partiallyReceived
              else POStatus.confirmed,
            receivedDate :=
              if (applyUpdates [(⟨1, 1, 5, 0⟩ : POLine)] [(1, 0)]).all
                  (fun li => li.quantityOrdered ≤ li.quantityReceived)
              then some 0 else none } :=
  ⟨receive_items_amended.1 0 [(1, 0)] _ rfl,
   receive_items_amended.2.2.2 0 [(1, 0)] _ (by decide) (by decide) (by decide)⟩

/-- Claim C9 counterexample: `add_stock_to_inventory` on a received
purchase order succeeds, increases stock from 10 to 15, and writes no
audit-trail entry at all — refuting "one audit entry per line it
increases". -/
theorem add_stock_no_audit_entries_cex :
    addStockToInventory exPState
      = Except.ok
          { po := { status := POStatus.received, lines := [⟨1, 1, 5, 5⟩],
                    receivedDate := some 7, receivingLocation := 1,
                    stockAdded := true }
            stocks := [⟨1, 1, 15⟩]
            log := [] } ∧
    exPState.stocks = [⟨1, 1, 10⟩] ∧
    exPState.log = [] := by
  refine ⟨by decide, by decide, by decide⟩

/-- Claim C9 (amended): successful `AdjustStock` and `TransferStock` calls
each append exactly one audit entry in the same transaction; but
`AddStockFromPurchaseOrder` appends no audit entry, and `RecordPayment`
itself appends none either — audit entries on the payment path come only
from the stock reduction it may trigger (none when `stock_reduced` is
already true). -/
theorem audit_trail_amended :
    (∀ (t : StockTable) (log : List LogEntry) (p l : Nat) (a : AdjAction)
        (n r : Nat),
      (adjustStock t log p l a n).1 = Except.ok r →
      ∃ e, (adjustStock t log p l a n).2.2 = log ++ [e]) ∧
    (∀ (t : StockTable) (log : List LogEntry) (p l1 l2 q : Nat) (r : Nat × Nat),
      (transferStock t log p l1 l2 q).1 = Except.ok r →
      ∃ e, (transferStock t log p l1 l2 q).2.2 = log ++ [e]) ∧
    (∀ (s s' : PState), addStockToInventory s = Except.ok s' → s'.log = s.log) ∧
    (∀ (amount today : Int) (s s' : SState), s.invoice.stockReduced = true →
      recordPayment amount today s = Except.ok s' → s'.log = s.log) := by
  refine ⟨?_, ?_, ?_, ?_⟩
  · intro t log p l a n r hok
    cases a with
    | add => exact ⟨_, rfl⟩
    | set => exact ⟨_, rfl⟩
    | remove =>
      by_cases hc : (lookupQty (getOrCreate t p l) p l).getD 0 < n
      · rw [show (adjustStock t log p l AdjAction.remove n).1
              = Except.error
                  (Err.insufficientStock ((lookupQty (getOrCreate t p l) p l).getD 0))
            from by simp [adjustStock, hc]] at hok
        exact absurd hok (by simp)
      · refine ⟨⟨ActionType.stockRemoved, (lookupQty (getOrCreate t p l) p l).getD 0,
          (lookupQty (getOrCreate t p l) p l).getD 0 - n⟩, ?_⟩
        simp [adjustStock, hc]
  · intro t log p l1 l2 q r hok
    revert hok
    unfold transferStock
    split_ifs with h1 h2
    · intro hok
      simp at hok
    · intro hok
      simp at hok
    · intro hok
      cases hsrc : lookupQty t p l1 with
      | none => simp [hsrc] at hok
      | some sq =>
        by_cases h3 : sq < q
        · simp [hsrc, h3] at hok
        · refine ⟨⟨ActionType.stockTransferred, sq - q,
            (lookupQty (getOrCreate (setQty t p l1 (sq - q)) p l2) p l2).getD 0 + q⟩, ?_⟩
          simp [hsrc, h3]
  · intro s s' hok
    unfold addStockToInventory at hok
    split_ifs at hok
    have h := Except.ok.inj hok
    rw [← h]
  · intro amount today s s' hfl hok
    rw [recordPayment_ok hok, paymentSave_def]
    exact (updateStatus_of_reduced (s := { s with
      payments := s.payments ++ [amount],
      invoice := { s.invoice with
        amountPaid := sumAmounts (s.payments ++ [amount]) } }) today hfl).2.1

/-- Witness for C9's amended theorem: a concrete successful adjustment
appends exactly its one audit entry, and a payment on an already-reduced
invoice appends none. -/
theorem audit_trail_amended_witness :
    (∃ e, (adjustStock [⟨1, 1, 10⟩] [] 1 1 AdjAction.add 5).2.2 = [] ++ [e]) ∧
    (paymentSave 100 60 exReduced).log = exReduced.log :=
  ⟨audit_trail_amended.1 [⟨1, 1, 10⟩] [] 1 1 AdjAction.add 5 15 (by decide),
   audit_trail_amended.2.2.2 100 60 exReduced (paymentSave 100 60 exReduced)
     (by decide) (by decide)⟩

theorem sumQ_nil : sumQ [] = 0 := rfl

theorem sumQ_cons (r : StockRow) (rs : List StockRow) :
    sumQ (r :: rs) = r.quantity + sumQ rs := by
  simp [sumQ]

theorem sumQ_append (l1 l2 : List StockRow) :
    sumQ (l1 ++ l2) = sumQ l1 + sumQ l2 := by
  simp [sumQ]

theorem drain_sumQ (rows : List StockRow) :
    ∀ n, sumQ (drain n rows).1 = sumQ rows - n := by
  induction rows with
  | nil => intro n; simp [drain, sumQ]
  | cons r rs ih =>
    intro n
    by_cases h0 : n = 0
    · simp [drain, h0]
    · by_cases hle : n ≤ r.quantity
      · simp [drain, h0, hle, sumQ_cons, sumQ]
        omega
      · have hrec := ih (n - r.quantity)
        simp [drain, h0, hle, sumQ_cons, sumQ] at hrec ⊢
        omega

theorem drain_leftover (rows : List StockRow) :
    ∀ n, (drain n rows).2.2 = n - sumQ rows := by
  induction rows with
  | nil => intro n; simp [drain, sumQ]
  | cons r rs ih =>
    intro n
    by_cases h0 : n = 0
    · simp [drain, h0, sumQ]
    · by_cases hle : n ≤ r.quantity
      · simp [drain, h0, hle, sumQ_cons]
        omega
      · have hrec := ih (n - r.quantity)
        simp [drain, h0, hle, sumQ_cons] at hrec ⊢
        omega

theorem drain_map_product (rows : List StockRow) :
    ∀ n, ((drain n rows).1).map StockRow.product = rows.map StockRow.product := by
  induction rows with
  | nil => intro n; simp [drain]
  | cons r rs ih =>
    intro n
    by_cases h0 : n = 0
    · simp [drain, h0]
    · by_cases hle : n ≤ r.quantity
      · simp [drain, h0, hle]
      · have hrec := ih (n - r.quantity)
        simp [drain, h0, hle] at hrec ⊢
        exact hrec

theorem drain_entries_removed (rows : List StockRow) :
    ∀ n, ∀ e ∈ (drain n rows).2.1, e.action = ActionType.stockRemoved := by
  induction rows with
  | nil => intro n e he; simp [drain] at he
  | cons r rs ih =>
    intro n e he
    by_cases h0 : n = 0
    · simp [drain, h0] at he
    · by_cases hle : n ≤ r.quantity
      · simp [drain, h0, hle] at he
        rw [he]
      · simp [drain, h0, hle] at he
        rcases he with rfl | he
        · rfl
        · exact ih (n - r.quantity) e he

theorem sumQ_insertDesc (r : StockRow) (l : List StockRow) :
    sumQ (insertDesc r l) = r.quantity + sumQ l := by
  induction l with
  | nil => simp [insertDesc, sumQ]
  | cons x xs ih =>
    by_cases hx : x.quantity ≤ r.quantity
    · simp [insertDesc, hx, sumQ_cons]
    · simp [insertDesc, hx, sumQ_cons, ih]
      omega

theorem mem_insertDesc {a r : StockRow} {l : List StockRow}
    (h : a ∈ insertDesc r l) : a = r ∨ a ∈ l := by
  induction l with
  | nil => simpa [insertDesc] using h
  | cons x xs ih =>
    by_cases hx : x.quantity ≤ r.quantity
    · rw [insertDesc, if_pos hx] at h
      simpa using h
    · rw [insertDesc, if_neg hx] at h
      rcases List.mem_cons.mp h with rfl | h
      · exact Or.inr (List.mem_cons_self _ _)
      · rcases ih h with rfl | h
        · exact Or.inl rfl
        · exact Or.inr (List.mem_cons_of_mem _ h)

theorem sumQ_sortDescQty (l : List StockRow) :
    sumQ (sortDescQty l) = sumQ l := by
  induction l with
  | nil => rfl
  | cons r rs ih =>
    rw [sortDescQty, sumQ_insertDesc, ih, sumQ_cons]

theorem mem_sortDescQty {a : StockRow} {l : List StockRow}
    (h : a ∈ sortDescQty l) : a ∈ l := by
  induction l with
  | nil => simpa [sortDescQty] using h
  | cons r rs ih =>
    rw [sortDescQty] at h
    rcases mem_insertDesc h with rfl | h
    · exact List.mem_cons_self _ _
    · exact List.mem_cons_of_mem _ (ih h)

theorem sorted_insertDesc {r : StockRow} {l : List StockRow}
    (h : l.Sorted (fun a b => b.quantity ≤ a.quantity)) :
    (insertDesc r l).Sorted (fun a b => b.quantity ≤ a.quantity) := by
  induction l with
  | nil => simp [insertDesc]
  | cons x xs ih =>
    rw [List.sorted_cons] at h
    by_cases hx : x.quantity ≤ r.quantity
    · rw [insertDesc, if_pos hx, List.sorted_cons]
      refine ⟨?_, List.sorted_cons.mpr h⟩
      intro b hb
      rcases List.mem_cons.mp hb with rfl | hb
      · exact hx
      · exact le_trans (h.1 b hb) hx
    · rw [insertDesc, if_neg hx, List.sorted_cons]
      refine ⟨?_, ih h.2⟩
      intro b hb
      rcases mem_insertDesc hb with rfl | hb
      · exact le_of_not_le hx
      · exact h.1 b hb

theorem sortDescQty_sorted (l : List StockRow) :
    (sortDescQty l).Sorted (fun a b => b.quantity ≤ a.quantity) := by
  induction l with
  | nil => simp [sortDescQty]
  | cons r rs ih => exact sorted_insertDesc ih

theorem countShortfall_append (a b : List LogEntry) :
    countShortfall (a ++ b) = countShortfall a + countShortfall b := by
  simp [countShortfall]

theorem countShortfall_removed {es : List LogEntry}
    (h : ∀ e ∈ es, e.action = ActionType.stockRemoved) :
    countShortfall es = 0 := by
  induction es with
  | nil => rfl
  | cons e es ih =>
    have he : e.action = ActionType.stockRemoved := h e (List.mem_cons_self _ _)
    have : (e.action == ActionType.stockLevelAdjusted) = false := by
      rw [he]; rfl
    simp [countShortfall, this]
    simpa [countShortfall] using ih (fun x hx => h x (List.mem_cons_of_mem _ hx))

theorem filter_not_filter (t : List StockRow) (P : StockRow → Bool) :
    (t.filter (fun a => !P a)).filter P = [] := by
  induction t with
  | nil => rfl
  | cons a as ih =>
    by_cases hP : P a = true
    · simp [List.filter_cons, hP, ih]
    · simp only [Bool.not_eq_true] at hP
      simp [List.filter_cons, hP, ih]

theorem filter_eq_self_of_all {l : List StockRow} {P : StockRow → Bool}
    (h : ∀ a ∈ l, P a = true) : l.filter P = l := by
  induction l with
  | nil => rfl
  | cons a as ih =>
    rw [List.filter_cons, if_pos (h a (List.mem_cons_self _ _)),
        ih (fun x hx => h x (List.mem_cons_of_mem _ hx))]

theorem rowMatches_product {prods : List ProdRow} {c pid : Nat}
    {r r' : StockRow} (h : r.product = r'.product) :
    rowMatches prods c pid r = rowMatches prods c pid r' := by
  simp [rowMatches, h]

theorem drain_all_matches {prods : List ProdRow} {c pid : Nat} {n : Nat}
    {rows : List StockRow}
    (h : ∀ r ∈ rows, rowMatches prods c pid r = true) :
    ∀ r' ∈ (drain n rows).1, rowMatches prods c pid r' = true := by
  intro r' hr'
  have hmap := drain_map_product rows n
  have hp : r'.product ∈ rows.map StockRow.product := by
    rw [← hmap]
    exact List.mem_map_of_mem _ hr'
  obtain ⟨b, hb, hbp⟩ := List.mem_map.mp hp
  rw [← rowMatches_product hbp]
  exact h b hb

/-- The per-line drain of `reduceLine` in closed form: the table keeps the
non-matching rows and the drained matching rows. -/
theorem reduceLine_fst (prods : List ProdRow) (c : Nat) (li : LineItem)
    (t : StockTable) (log : List LogEntry) :
    (reduceLine prods c li t log).1
      = t.filter (fun r => !rowMatches prods c li.product r)
        ++ (drain li.quantity
              (sortDescQty (t.filter (rowMatches prods c li.product)))).1 := rfl

/-- The audit log written by `reduceLine` in closed form. -/
theorem reduceLine_snd (prods : List ProdRow) (c : Nat) (li : LineItem)
    (t : StockTable) (log : List LogEntry) :
    (reduceLine prods c li t log).2
      = (if 0 < (drain li.quantity
              (sortDescQty (t.filter (rowMatches prods c li.product)))).2.2
         then (log ++ (drain li.quantity
              (sortDescQty (t.filter (rowMatches prods c li.product)))).2.1)
              ++ [⟨ActionType.stockLevelAdjusted, li.quantity,
                   (drain li.quantity
                     (sortDescQty (t.filter (rowMatches prods c li.product)))).2.2⟩]
         else log ++ (drain li.quantity
              (sortDescQty (t.filter (rowMatches prods c li.product)))).2.1) := rfl

theorem reduceLine_availableQty (prods : List ProdRow) (c : Nat) (li : LineItem)
    (t : StockTable) (log : List LogEntry) :
    availableQty prods c li.product (reduceLine prods c li t log).1
      = availableQty prods c li.product t - li.quantity := by
  have hall : ∀ r ∈ sortDescQty (t.filter (rowMatches prods c li.product)),
      rowMatches prods c li.product r = true :=
    fun r hr => (List.mem_filter.mp (mem_sortDescQty hr)).2
  have hdrall := drain_all_matches (n := li.quantity) hall
  rw [reduceLine_fst]
  unfold availableQty
  rw [List.filter_append, filter_not_filter, filter_eq_self_of_all hdrall,
      List.nil_append, drain_sumQ, sumQ_sortDescQty]

theorem reduceLine_shortfall (prods : List ProdRow) (c : Nat) (li : LineItem)
    (t : StockTable) (log : List LogEntry) :
    countShortfall (reduceLine prods c li t log).2
      = countShortfall log
        + (if availableQty prods c li.product t < li.quantity then 1 else 0) := by
  rw [reduceLine_snd]
  have hrm := drain_entries_removed
    (sortDescQty (t.filter (rowMatches prods c li.product))) li.quantity
  have hleft := drain_leftover
    (sortDescQty (t.filter (rowMatches prods c li.product))) li.quantity
  rw [sumQ_sortDescQty] at hleft
  have havail : sumQ (t.filter (rowMatches prods c li.product))
      = availableQty prods c li.product t := rfl
  rw [havail] at hleft
  by_cases hpos : 0 <
      (drain li.quantity
        (sortDescQty (t.filter (rowMatches prods c li.product)))).2.2
  · rw [if_pos hpos, countShortfall_append, countShortfall_append,
        countShortfall_removed hrm]
    have hlt : availableQty prods c li.product t < li.quantity := by omega
    rw [if_pos hlt]
    rfl
  · rw [if_neg hpos, countShortfall_append, countShortfall_removed hrm]
    have hge : ¬ availableQty prods c li.product t < li.quantity := by omega
    rw [if_neg hge]

/-- Claim C7: the stock rows of a line's product are drained in order of
decreasing current quantity (`sortDescQty` output is sorted descending);
the per-line drain of `Invoice.reduce_stock` removes exactly
`min(quantityNeeded, totalAvailable)` from the tenant's rows of that
product; a shortfall never produces an error — it only appends one
`STOCK_LEVEL_ADJUSTED` warning entry, exactly when the need exceeds the
available total; and `reduce_stock` on a one-line invoice drains exactly
that minimum. -/
theorem bulk_reduce_drains_min_of_available :
    (∀ (l : List StockRow),
      (sortDescQty l).Sorted (fun a b => b.quantity ≤ a.quantity)) ∧
    (∀ (prods : List ProdRow) (c : Nat) (li : LineItem) (t : StockTable)
        (log : List LogEntry),
      availableQty prods c li.product (reduceLine prods c li t log).1
        = availableQty prods c li.product t - li.quantity ∧
      availableQty prods c li.product t
          - availableQty prods c li.product (reduceLine prods c li t log).1
        = min li.quantity (availableQty prods c li.product t) ∧
      countShortfall (reduceLine prods c li t log).2
        = countShortfall log
          + (if availableQty prods c li.product t < li.quantity then 1 else 0)) ∧
    (∀ (s : SState) (li : LineItem),
      s.invoice.stockReduced = false → s.invoice.lineItems = [li] →
      availableQty s.products s.invoice.company li.product (reduceStock s).stocks
        = availableQty s.products s.invoice.company li.product s.stocks
          - li.quantity) := by
  refine ⟨sortDescQty_sorted, ?_, ?_⟩
  · intro prods c li t log
    refine ⟨reduceLine_availableQty prods c li t log, ?_,
      reduceLine_shortfall prods c li t log⟩
    rw [reduceLine_availableQty prods c li t log]
    omega
  · intro s li hflag hlines
    unfold reduceStock
    rw [if_neg (by simp [hflag]), hlines]
    exact reduceLine_availableQty s.products s.invoice.company li s.stocks s.log

/-- Witness for C7: on the concrete state — 13 units of product 1 across
two locations, a line needing 12 — the drain removes exactly 12 and warns
about nothing; with a need of 20 it removes all 13 and appends exactly one
shortfall warning. -/
theorem bulk_reduce_drains_min_of_available_witness :
    availableQty exState.products 0 1
        (reduceLine exState.products 0 ⟨1, 12⟩ exState.stocks []).1
      = availableQty exState.products 0 1 exState.stocks - 12 ∧
    countShortfall (reduceLine exState.products 0 ⟨1, 20⟩ exState.stocks []).2
      = countShortfall []
        + (if availableQty exState.products 0 1 exState.stocks < 20 then 1 else 0) ∧
    availableQty exState.products 0 1 (reduceStock exState).stocks
      = availableQty exState.products 0 1 exState.stocks - 12 :=
  ⟨(bulk_reduce_drains_min_of_available.2.1 exState.products 0 ⟨1, 12⟩
      exState.stocks []).1,
   (bulk_reduce_drains_min_of_available.2.1 exState.products 0 ⟨1, 20⟩
      exState.stocks []).2.2,
   bulk_reduce_drains_min_of_available.2.2 exState ⟨1, 12⟩ (by decide) (by decide)⟩
